import Mathlib

/-!
Verification of the fxpay purchase orchestration engine.

The repository snapshot contains `lib/fxpay/utils.js` (helpers `defaults`,
`getSelfOrigin`) and the settings module (`settings_configure`), plus the
purchase test-suite.  Those parts are embedded directly from the source.
The purchase core itself (transaction poller, receipt store, orchestrator)
is not present in the snapshot, so those components are modelled from the
specification, as indicated on each definition.
-/

namespace FxPay

/-- Normalized product information attached to purchase outcomes and errors. -/
structure ProductInfo where
  productId : String
  deriving Repr, DecidableEq

/-- The error taxonomy of the engine (spec section 4.1): each error kind with
the context it carries. -/
inductive FxError where
  | ConfigurationError (message : String)
  | PurchaseTimeout (productInfo : ProductInfo)
  | PayPlatformError (code : String) (productInfo : ProductInfo)
  | PayPlatformUnavailable (message : String)
  | AddReceiptError (code : String) (productInfo : ProductInfo)
  | InvalidAppOrigin (message : List Char)
  deriving Repr, DecidableEq

/-- A transaction record as returned by a status query: the `status` field is
a raw string; only four values are recognized (spec section 4.3). -/
structure TransactionRecord where
  productId : String
  status : String
  receipt : Option String
  deriving Repr, DecidableEq

/-- `completed` and `failed` are the terminal transaction statuses. -/
def isTerminalStatus (s : String) : Bool :=
  s == "completed" || s == "failed"

/-- `pending` and `incomplete` are the recognized, non-terminal statuses. -/
def isNonTerminalRecognized (s : String) : Bool :=
  s == "pending" || s == "incomplete"

/-- Modelled from the spec: the transaction poller loop of section 4.3 (the
poller source file is not part of the repository snapshot; only its tests
are).  `query i` is the transaction returned by the `i`-th status query
(0-based).  `triesLeft` counts remaining attempts, `done` counts queries
already issued.  Each iteration issues one query; a terminal status settles
immediately, an unrecognized status fails immediately with
`ConfigurationError`, and a recognized non-terminal status retries while
attempts remain, failing with `PurchaseTimeout` once `maxTries` is
exhausted.  The result pairs the total number of queries issued with the
outcome. -/
def pollAux (query : Nat → TransactionRecord) (productId : String) :
    Nat → Nat → Nat × Except FxError TransactionRecord
  | 0, done => (done, .error (.PurchaseTimeout ⟨productId⟩))
  | triesLeft + 1, done =>
    let tx := query done
    if isTerminalStatus tx.status then
      (done + 1, .ok tx)
    else if !isNonTerminalRecognized tx.status then
      (done + 1, .error (.ConfigurationError ("unexpected transaction state: " ++ tx.status)))
    else
      pollAux query productId triesLeft (done + 1)

/-- Modelled from the spec: `pollTransaction(productId, config)` of section
4.3, with the response of each status query given by `query`. -/
def pollTransaction (query : Nat → TransactionRecord) (productId : String)
    (maxTries : Nat) : Nat × Except FxError TransactionRecord :=
  pollAux query productId maxTries 0

theorem nonTerminal_not_terminal (s : String)
    (h : isNonTerminalRecognized s = true) : isTerminalStatus s = false := by
  unfold isNonTerminalRecognized at h
  rcases Bool.or_eq_true_iff.mp h with h1 | h1
  · have h2 := eq_of_beq h1; subst h2; rfl
  · have h2 := eq_of_beq h1; subst h2; rfl

theorem pollAux_all_nonterminal (query : Nat → TransactionRecord)
    (productId : String)
    (hq : ∀ i, isNonTerminalRecognized (query i).status = true) :
    ∀ n i, pollAux query productId n i =
      (i + n, .error (.PurchaseTimeout ⟨productId⟩)) := by
  intro n
  induction n with
  | zero => intro i; simp [pollAux]
  | succ m ih =>
    intro i
    rw [pollAux]
    simp only [nonTerminal_not_terminal _ (hq i), hq i]
    rw [ih (i + 1)]
    simp
    omega

/-- Claim C1: polling with `maxTries = N > 0` against a transaction whose
status queries always return a recognized non-terminal status (`pending` or
`incomplete`) rejects with `PurchaseTimeout` after exactly `N` status
queries, and the error's `productInfo.productId` is the polled product id. -/
theorem pollTransaction_timeout (query : Nat → TransactionRecord)
    (productId : String) (N : Nat) (hN : 0 < N)
    (hq : ∀ i, isNonTerminalRecognized (query i).status = true) :
    pollTransaction query productId N =
      (N, .error (.PurchaseTimeout { productId := productId })) := by
  rw [pollTransaction, pollAux_all_nonterminal query productId hq N 0]
  simp

/-- Witness for C1: the scenario of the timeout test (`maxTries = 2`, a
transaction stuck at `incomplete`) makes exactly 2 queries and times out. -/
theorem pollTransaction_timeout_witness :
    pollTransaction (fun _ => ⟨"some-guid", "incomplete", none⟩) "some-guid" 2 =
      (2, .error (.PurchaseTimeout { productId := "some-guid" })) :=
  pollTransaction_timeout _ "some-guid" 2 (by decide) (fun _ => rfl)

theorem pollAux_invalid (query : Nat → TransactionRecord) (productId : String) :
    ∀ (k n i : Nat), k < n →
    (∀ j, j < k → isNonTerminalRecognized (query (i + j)).status = true) →
    isTerminalStatus (query (i + k)).status = false →
    isNonTerminalRecognized (query (i + k)).status = false →
    pollAux query productId n i =
      (i + k + 1, .error (.ConfigurationError
        ("unexpected transaction state: " ++ (query (i + k)).status))) := by
  intro k
  induction k with
  | zero =>
    intro n i hn hpre hterm hrec
    obtain ⟨m, rfl⟩ : ∃ m, n = m + 1 := ⟨n - 1, by omega⟩
    rw [pollAux]
    simp only [Nat.add_zero] at hterm hrec
    simp [hterm, hrec]
  | succ k ih =>
    intro n i hn hpre hterm hrec
    obtain ⟨m, rfl⟩ : ∃ m, n = m + 1 := ⟨n - 1, by omega⟩
    have h0 : isNonTerminalRecognized (query i).status = true := by
      have := hpre 0 (by omega)
      simpa using this
    rw [pollAux]
    simp only [nonTerminal_not_terminal _ h0, h0]
    have hpre' : ∀ j, j < k → isNonTerminalRecognized (query (i + 1 + j)).status = true := by
      intro j hj
      have := hpre (j + 1) (by omega)
      simpa [Nat.add_assoc, Nat.add_comm 1 j] using this
    have hterm' : isTerminalStatus (query (i + 1 + k)).status = false := by
      simpa [Nat.add_assoc, Nat.add_comm 1 k] using hterm
    have hrec' : isNonTerminalRecognized (query (i + 1 + k)).status = false := by
      simpa [Nat.add_assoc, Nat.add_comm 1 k] using hrec
    rw [ih m (i + 1) (by omega) hpre' hterm' hrec']
    simp
    constructor
    · omega
    · rw [show i + 1 + k = i + (k + 1) by omega]

/-- Claim C2: a status query returning a status outside
`{pending, incomplete, completed, failed}` makes `pollTransaction` reject
immediately with `ConfigurationError`: if the invalid status arrives on
query `k` (after `k` recognized non-terminal responses), exactly `k + 1`
queries are issued and the outcome does not depend on how many attempts
remain. -/
theorem pollTransaction_invalid_status (query : Nat → TransactionRecord)
    (productId : String) (N k : Nat) (hk : k < N)
    (hpre : ∀ j, j < k → isNonTerminalRecognized (query j).status = true)
    (hterm : isTerminalStatus (query k).status = false)
    (hrec : isNonTerminalRecognized (query k).status = false) :
    pollTransaction query productId N =
      (k + 1, .error (.ConfigurationError
        ("unexpected transaction state: " ++ (query k).status))) := by
  rw [pollTransaction,
    pollAux_invalid query productId k N 0 hk (by simpa using hpre)
      (by simpa using hterm) (by simpa using hrec)]
  simp

/-- Witness for C2: the invalid-state test scenario: the very first query
returns `THIS_IS_NOT_A_VALID_STATE`, and polling with `maxTries = 5` stops
after a single query with `ConfigurationError`. -/
theorem pollTransaction_invalid_status_witness :
    pollTransaction (fun _ => ⟨"some-guid", "THIS_IS_NOT_A_VALID_STATE", none⟩)
      "some-guid" 5 =
      (1, .error (.ConfigurationError
        ("unexpected transaction state: " ++ "THIS_IS_NOT_A_VALID_STATE"))) :=
  pollTransaction_invalid_status _ "some-guid" 5 0 (by decide)
    (fun j hj => absurd hj (by omega)) (by decide) (by decide)

/-- Modelled from the spec: the events that drive one purchase attempt
through the orchestrator of section 4.5 (the orchestrator source file is not
part of the repository snapshot): collaborator callbacks for token
acquisition, the platform payment primitive, the transaction poller, the
receipt store and the product-metadata fetch. -/
inductive PurchaseEvent where
  | tokenOk
  | tokenErr (e : FxError)
  | platformOk
  | platformErr (name : String)
  | pollOk (tx : TransactionRecord)
  | pollErr (e : FxError)
  | storeOk
  | storeErr (e : FxError)
  | metadataOk (info : ProductInfo)
  deriving Repr, DecidableEq

/-- Modelled from the spec: the states of the purchase orchestrator state
machine of section 4.5; `resolvedOutcome` and `failedOutcome` are the
terminal states that deliver the attempt's single outcome. -/
inductive PurchaseState where
  | requestingToken
  | awaitingPlatform
  | resolvingTx
  | storingReceipt
  | fetchingInfo
  | resolvedOutcome (info : ProductInfo)
  | failedOutcome (e : FxError)
  deriving Repr, DecidableEq

/-- A purchase state is terminal when an outcome has been delivered. -/
def PurchaseState.isTerminal : PurchaseState → Bool
  | .resolvedOutcome _ => true
  | .failedOutcome _ => true
  | _ => false

/-- Modelled from the spec: one transition of the purchase orchestrator
(section 4.5).  A platform error is mapped to `PayPlatformError` carrying
the platform's error name and the attempt's product id (section 4.4);
poller and store failures propagate their typed error; terminal states
have no outgoing transitions; events that do not apply to the current
state leave it unchanged. -/
def purchaseStep (productId : String) : PurchaseState → PurchaseEvent → PurchaseState
  | .requestingToken, .tokenOk => .awaitingPlatform
  | .requestingToken, .tokenErr e => .failedOutcome e
  | .awaitingPlatform, .platformOk => .resolvingTx
  | .awaitingPlatform, .platformErr name =>
      .failedOutcome (.PayPlatformError name ⟨productId⟩)
  | .resolvingTx, .pollOk _ => .storingReceipt
  | .resolvingTx, .pollErr e => .failedOutcome e
  | .storingReceipt, .storeOk => .fetchingInfo
  | .storingReceipt, .storeErr e => .failedOutcome e
  | .fetchingInfo, .metadataOk info => .resolvedOutcome info
  | s, _ => s

/-- Modelled from the spec: run one purchase attempt from a state over a
sequence of collaborator events. -/
def runPurchase (productId : String) (s : PurchaseState)
    (events : List PurchaseEvent) : PurchaseState :=
  events.foldl (purchaseStep productId) s

/-- Modelled from the spec: how many outcomes a run delivers — a delivery
is a transition from a non-terminal state into a terminal one. -/
def deliveredOutcomes (productId : String) (s : PurchaseState) :
    List PurchaseEvent → Nat
  | [] => 0
  | e :: es =>
    let s2 := purchaseStep productId s e
    (if !s.isTerminal && s2.isTerminal then 1 else 0) +
      deliveredOutcomes productId s2 es

theorem purchaseStep_terminal (productId : String) (s : PurchaseState)
    (h : s.isTerminal = true) (e : PurchaseEvent) :
    purchaseStep productId s e = s := by
  cases s <;> simp_all [PurchaseState.isTerminal] <;> cases e <;> rfl

theorem deliveredOutcomes_terminal (productId : String) (s : PurchaseState)
    (h : s.isTerminal = true) :
    ∀ es, deliveredOutcomes productId s es = 0 := by
  intro es
  induction es generalizing s with
  | nil => rfl
  | cons e es ih =>
    rw [deliveredOutcomes]
    simp only [purchaseStep_terminal productId s h e, h]
    simpa using ih s h

theorem deliveredOutcomes_le_one (productId : String) (s : PurchaseState) :
    ∀ es, deliveredOutcomes productId s es ≤ 1 := by
  intro es
  induction es generalizing s with
  | nil => simp [deliveredOutcomes]
  | cons e es ih =>
    rw [deliveredOutcomes]
    by_cases h2 : (purchaseStep productId s e).isTerminal = true
    · rw [deliveredOutcomes_terminal productId _ h2 es]
      split <;> simp
    · have hz : (!s.isTerminal && (purchaseStep productId s e).isTerminal) = false := by
        simp [h2]
      rw [hz]
      simpa using ih (purchaseStep productId s e)

/-- Claim C4: a purchase attempt delivers at most one terminal outcome —
along any event sequence, the orchestrator run from its initial state
transitions into a terminal state (resolution or rejection) at most once,
so it never delivers both a resolution and a rejection, nor either twice. -/
theorem purchase_at_most_one_outcome (productId : String)
    (events : List PurchaseEvent) :
    deliveredOutcomes productId .requestingToken events ≤ 1 :=
  deliveredOutcomes_le_one productId .requestingToken events

/-- Claim C5: whenever the platform payment primitive reports an error, the
attempt fails with a `PayPlatformError` whose `code` is the platform's
reported error name and whose `productInfo.productId` is the product id
passed to `purchase`. -/
theorem purchase_platform_error (productId name : String)
    (events : List PurchaseEvent)
    (h : runPurchase productId .requestingToken events = .awaitingPlatform) :
    runPurchase productId .requestingToken (events ++ [.platformErr name]) =
      .failedOutcome (.PayPlatformError name { productId := productId }) := by
  rw [runPurchase, List.foldl_append]
  rw [runPurchase] at h
  rw [h]
  rfl

/-- Witness for C5: the mozPay-error test scenario — token acquisition
succeeds, then the platform reports `DIALOG_CLOSED_BY_USER`; the attempt
fails with that code and the product id `some-guid`. -/
theorem purchase_platform_error_witness :
    runPurchase "some-guid" .requestingToken
        ([.tokenOk] ++ [.platformErr "DIALOG_CLOSED_BY_USER"]) =
      .failedOutcome (.PayPlatformError "DIALOG_CLOSED_BY_USER"
        { productId := "some-guid" }) :=
  purchase_platform_error "some-guid" "DIALOG_CLOSED_BY_USER" [.tokenOk] rfl

/-- The single fixed localStorage key under which receipts are persisted
(`localStorageKey` in the settings source). -/
def localStorageKey : String := "fxpayReceipts"

/-- A localStorage-like key-value store: `getItem`, returning `none` for an
absent key. -/
def lsGetItem : List (String × String) → String → Option String
  | [], _ => none
  | (k', v') :: rest, k => if k' = k then some v' else lsGetItem rest k

/-- A localStorage-like key-value store: `setItem`, replacing the value of
an existing key or appending a fresh entry. -/
def lsSetItem : List (String × String) → String → String → List (String × String)
  | [], k, v => [(k, v)]
  | (k', v') :: rest, k, v =>
    if k' = k then (k, v) :: rest else (k', v') :: lsSetItem rest k v

/-- JSON escaping of one character inside a string literal (quote and
backslash are escaped). -/
def escapeChar (c : Char) : List Char :=
  if c = '"' ∨ c = '\\' then ['\\', c] else [c]

/-- JSON escaping of a string body. -/
def encodeStringBody : List Char → List Char
  | [] => []
  | c :: cs => escapeChar c ++ encodeStringBody cs

/-- A JSON string literal: quoted, escaped body. -/
def encodeJsonString (s : List Char) : List Char :=
  '"' :: (encodeStringBody s ++ ['"'])

/-- The comma-separated items of a JSON array of strings. -/
def encodeItems : List (List Char) → List Char
  | [] => []
  | [s] => encodeJsonString s
  | s :: rest => encodeJsonString s ++ ',' :: encodeItems rest

/-- JSON encoding of an ordered list of receipt strings, as persisted under
`localStorageKey`. -/
def encodeReceipts (rs : List String) : String :=
  ⟨'[' :: (encodeItems (rs.map String.data) ++ [']'])⟩

/-- Parse the body of a JSON string literal up to its closing quote,
returning the decoded body and the remaining input. -/
def parseStringBody : List Char → Option (List Char × List Char)
  | [] => none
  | c :: rest =>
    if c = '"' then some ([], rest)
    else if c = '\\' then
      match rest with
      | [] => none
      | c2 :: rest2 =>
        if c2 = '"' ∨ c2 = '\\' then
          match parseStringBody rest2 with
          | none => none
          | some (body, rem) => some (c2 :: body, rem)
        else none
    else
      match parseStringBody rest with
      | none => none
      | some (body, rem) => some (c :: body, rem)

/-- Parse one or more comma-separated JSON string literals; `fuel` bounds
the number of items. -/
def parseItems : Nat → List Char → Option (List (List Char) × List Char)
  | 0, _ => none
  | _, [] => none
  | fuel + 1, c :: cs =>
    if c = '"' then
      match parseStringBody cs with
      | none => none
      | some (s, rem) =>
        match rem with
        | ',' :: rem2 =>
          match parseItems fuel rem2 with
          | none => none
          | some (ss, rem3) => some (s :: ss, rem3)
        | _ => some ([s], rem)
    else none

/-- Decode a JSON-encoded array of receipt strings; `none` on malformed
input. -/
def decodeReceipts (v : String) : Option (List String) :=
  match v.data with
  | '[' :: cs =>
    if cs = [']'] then some []
    else
      match parseItems cs.length cs with
      | some (ss, [']']) => some (ss.map fun l => ⟨l⟩)
      | _ => none
  | _ => none

/-- Modelled from the spec: reading the persisted receipt list out of the
fallback store (section 4.2; the receipt-store source file is not part of
the repository snapshot).  An absent key or a malformed value reads as the
empty list. -/
def getStoredReceipts (kv : List (String × String)) : List String :=
  match lsGetItem kv localStorageKey with
  | none => []
  | some v => (decodeReceipts v).getD []

/-- Modelled from the spec: storing a receipt through the local fallback
store (section 4.2): read the persisted list, skip insertion when the
receipt already appears (exact-match deduplication), otherwise append it
and persist the JSON-encoded list under the single fixed key. -/
def addReceiptWithLocStor (kv : List (String × String)) (receipt : String) :
    List (String × String) :=
  let receipts := getStoredReceipts kv
  if receipt ∈ receipts then kv
  else lsSetItem kv localStorageKey (encodeReceipts (receipts ++ [receipt]))

/-- Modelled from the spec: the receipt-store environment of one purchase
attempt — `deviceStoreResult` is `none` when the device-native store is
unavailable, otherwise the outcome its add-receipt operation reports;
`localStorage` is `none` when the fallback store is disabled (configured
to null). -/
structure ReceiptStoreEnv where
  deviceStoreResult : Option (Except String Unit)
  localStorage : Option (List (String × String))

/-- Modelled from the spec: `storeReceipt` of section 4.2 (the receipt-store
source file is not part of the repository snapshot): try the device-native
store first, mapping its platform error to `AddReceiptError`; fall back to
the deduplicating local store; fail with `PayPlatformUnavailable` when
neither mechanism is available. -/
def storeReceipt (env : ReceiptStoreEnv) (receipt : String)
    (productId : String) : ReceiptStoreEnv × Except FxError Unit :=
  match env.deviceStoreResult with
  | some (.ok _) => (env, .ok ())
  | some (.error code) => (env, .error (.AddReceiptError code ⟨productId⟩))
  | none =>
    match env.localStorage with
    | some kv =>
      ({ env with localStorage := some (addReceiptWithLocStor kv receipt) }, .ok ())
    | none =>
      (env, .error (.PayPlatformUnavailable "no way to store receipt"))

theorem lsGetItem_set_self (kv : List (String × String)) (k v : String) :
    lsGetItem (lsSetItem kv k v) k = some v := by
  induction kv with
  | nil => simp [lsSetItem, lsGetItem]
  | cons p rest ih =>
    by_cases h : p.1 = k
    · simp [lsSetItem, h, lsGetItem]
    · simp [lsSetItem, h, lsGetItem, ih]

theorem lsGetItem_set_other (kv : List (String × String)) (k v k' : String)
    (h : k' ≠ k) : lsGetItem (lsSetItem kv k v) k' = lsGetItem kv k' := by
  have hne : ¬ k = k' := fun hh => h hh.symm
  induction kv with
  | nil => simp [lsSetItem, lsGetItem, hne]
  | cons p rest ih =>
    obtain ⟨pk, pv⟩ := p
    by_cases hp : pk = k
    · subst hp
      simp only [lsSetItem, if_pos rfl, lsGetItem, if_neg hne]
    · simp only [lsSetItem, if_neg hp, lsGetItem, ih]

theorem parseStringBody_encode (s : List Char) :
    ∀ rest, parseStringBody (encodeStringBody s ++ '"' :: rest) = some (s, rest) := by
  induction s with
  | nil =>
    intro rest
    show parseStringBody ('"' :: rest) = some ([], rest)
    rw [parseStringBody.eq_def]
    simp
  | cons c cs ih =>
    intro rest
    rw [encodeStringBody, escapeChar]
    by_cases hc : c = '"' ∨ c = '\\'
    · rw [if_pos hc]
      show parseStringBody ('\\' :: c :: (encodeStringBody cs ++ '"' :: rest)) = _
      rw [parseStringBody.eq_def]
      have h1 : ¬ ('\\' : Char) = '"' := by decide
      simp only [if_neg h1, if_pos rfl, if_pos hc, ih rest]
      simp
    · rw [if_neg hc]
      push_neg at hc
      show parseStringBody (c :: (encodeStringBody cs ++ '"' :: rest)) = _
      rw [parseStringBody.eq_def]
      simp only [if_neg hc.1, if_neg hc.2, ih rest]

theorem parseItems_encode (items : List (List Char)) :
    ∀ fuel rest, items ≠ [] → items.length ≤ fuel →
    parseItems fuel (encodeItems items ++ ']' :: rest) = some (items, ']' :: rest) := by
  induction items with
  | nil => intro fuel rest h; exact absurd rfl h
  | cons a tl ih =>
    intro fuel rest _ hlen
    obtain ⟨f, rfl⟩ : ∃ f, fuel = f + 1 := ⟨fuel - 1, by simp at hlen; omega⟩
    cases tl with
    | nil =>
      show parseItems (f + 1) (encodeJsonString a ++ ']' :: rest) = _
      rw [encodeJsonString]
      have hassoc : (('"' :: (encodeStringBody a ++ ['"'])) ++ ']' :: rest) =
          '"' :: (encodeStringBody a ++ '"' :: ']' :: rest) := by simp
      rw [hassoc, parseItems.eq_def]
      simp only [if_pos rfl, parseStringBody_encode a (']' :: rest)]
      simp
    | cons b tl2 =>
      show parseItems (f + 1)
        ((encodeJsonString a ++ ',' :: encodeItems (b :: tl2)) ++ ']' :: rest) = _
      rw [encodeJsonString]
      have hassoc : ((('"' :: (encodeStringBody a ++ ['"'])) ++
          ',' :: encodeItems (b :: tl2)) ++ ']' :: rest) =
          '"' :: (encodeStringBody a ++
            '"' :: ',' :: (encodeItems (b :: tl2) ++ ']' :: rest)) := by simp
      rw [hassoc, parseItems.eq_def]
      simp only [if_pos rfl, parseStringBody_encode a
        (',' :: (encodeItems (b :: tl2) ++ ']' :: rest))]
      rw [ih f rest (by simp) (by simp at hlen ⊢; omega)]
      simp

theorem stringMk_data (s : String) : (⟨s.data⟩ : String) = s := by
  cases s
  rfl

theorem encodeItems_cons (s : List Char) (tl : List (List Char)) :
    ∃ t, encodeItems (s :: tl) = '"' :: t := by
  cases tl with
  | nil => exact ⟨encodeStringBody s ++ ['"'], rfl⟩
  | cons b tl2 =>
    refine ⟨(encodeStringBody s ++ ['"']) ++ ',' :: encodeItems (b :: tl2), ?_⟩
    show encodeJsonString s ++ ',' :: encodeItems (b :: tl2) = _
    rw [encodeJsonString]
    simp

theorem encodeItems_length (items : List (List Char)) (h : items ≠ []) :
    items.length ≤ (encodeItems items).length := by
  induction items with
  | nil => exact absurd rfl h
  | cons a tl ih =>
    cases tl with
    | nil =>
      show 1 ≤ (encodeJsonString a).length
      rw [encodeJsonString]
      simp
    | cons b tl2 =>
      have hih := ih (by simp)
      show (a :: b :: tl2).length ≤
        (encodeJsonString a ++ ',' :: encodeItems (b :: tl2)).length
      rw [encodeJsonString]
      simp at hih ⊢
      omega

/-- The JSON encoding of a receipt list decodes back to the same list. -/
theorem decodeReceipts_encodeReceipts (rs : List String) :
    decodeReceipts (encodeReceipts rs) = some rs := by
  cases rs with
  | nil => rfl
  | cons r tl =>
    obtain ⟨t, ht⟩ := encodeItems_cons r.data (tl.map String.data)
    have hitems : (r :: tl).map String.data = r.data :: tl.map String.data := rfl
    have hdata : (encodeReceipts (r :: tl)).data = '[' :: ('"' :: (t ++ [']'])) := by
      show '[' :: (encodeItems ((r :: tl).map String.data) ++ [']']) = _
      rw [hitems, ht]
      simp
    have hne : ¬ ('"' :: (t ++ [']'])) = [']'] := by
      intro hh
      have hhead := congrArg (List.headD · ' ') hh
      simp at hhead
    have hlen : ((r :: tl).map String.data).length ≤ ('"' :: (t ++ [']'])).length := by
      calc ((r :: tl).map String.data).length
          ≤ (encodeItems ((r :: tl).map String.data)).length :=
            encodeItems_length _ (by simp)
        _ ≤ ('"' :: (t ++ [']'])).length := by
            rw [hitems, ht]; simp
    have hp := parseItems_encode ((r :: tl).map String.data)
      ('"' :: (t ++ [']'])).length [] (by simp) hlen
    rw [hitems, ht] at hp
    have hform : (('"' :: t) ++ ']' :: []) = '"' :: (t ++ [']']) := by simp
    rw [hform] at hp
    rw [decodeReceipts.eq_def, hdata]
    simp only [if_neg hne, hp]
    show some (((r :: tl).map String.data).map fun l => (⟨l⟩ : String)) = some (r :: tl)
    rw [List.map_map]
    congr 1
    rw [show ((fun l => (⟨l⟩ : String)) ∘ String.data) = id from funext stringMk_data]
    simp

theorem getStoredReceipts_of_lookup (kv : List (String × String)) (L : List String)
    (h : lsGetItem kv localStorageKey = some (encodeReceipts L)) :
    getStoredReceipts kv = L := by
  rw [getStoredReceipts, h]
  show (decodeReceipts (encodeReceipts L)).getD [] = L
  rw [decodeReceipts_encodeReceipts]
  rfl

/-- Claim C3: storing a receipt via the local fallback store is idempotent
and append-only.  For a store persisting list `L` under the fixed key
(or holding nothing yet, read as `[]`): storing `r` when `r ∈ L` leaves the
store unchanged; storing the same receipt twice equals storing it once;
the new list extends `L` (entries are never removed); the on-disk value at
the fixed key is the JSON-encoded ordered list; and no other key is
touched. -/
theorem addReceiptWithLocStor_idempotent (kv : List (String × String))
    (r : String) (L : List String)
    (h : lsGetItem kv localStorageKey = some (encodeReceipts L) ∨
         (lsGetItem kv localStorageKey = none ∧ L = [])) :
    (r ∈ L → addReceiptWithLocStor kv r = kv) ∧
    addReceiptWithLocStor (addReceiptWithLocStor kv r) r = addReceiptWithLocStor kv r ∧
    (∃ tail, getStoredReceipts (addReceiptWithLocStor kv r) = L ++ tail) ∧
    lsGetItem (addReceiptWithLocStor kv r) localStorageKey =
      some (encodeReceipts (if r ∈ L then L else L ++ [r])) ∧
    (∀ k, k ≠ localStorageKey →
      lsGetItem (addReceiptWithLocStor kv r) k = lsGetItem kv k) := by
  have hL : getStoredReceipts kv = L := by
    rcases h with h | ⟨h, rfl⟩
    · exact getStoredReceipts_of_lookup kv L h
    · rw [getStoredReceipts, h]
  by_cases hr : r ∈ L
  · have heq : addReceiptWithLocStor kv r = kv := by
      rw [addReceiptWithLocStor, hL, if_pos hr]
    have hlook : lsGetItem kv localStorageKey = some (encodeReceipts L) := by
      rcases h with h | ⟨_, rfl⟩
      · exact h
      · simp at hr
    refine ⟨fun _ => heq, by rw [heq, heq], ⟨[], by rw [heq, hL, List.append_nil]⟩,
      ?_, fun k _ => by rw [heq]⟩
    rw [heq, if_pos hr, hlook]
  · have heq : addReceiptWithLocStor kv r =
        lsSetItem kv localStorageKey (encodeReceipts (L ++ [r])) := by
      rw [addReceiptWithLocStor, hL, if_neg hr]
    have hlook1 : lsGetItem (addReceiptWithLocStor kv r) localStorageKey =
        some (encodeReceipts (L ++ [r])) := by
      rw [heq, lsGetItem_set_self]
    have hstored1 : getStoredReceipts (addReceiptWithLocStor kv r) = L ++ [r] :=
      getStoredReceipts_of_lookup _ _ hlook1
    have hsecond : addReceiptWithLocStor (addReceiptWithLocStor kv r) r =
        addReceiptWithLocStor kv r := by
      rw [addReceiptWithLocStor, hstored1, if_pos (by simp)]
    refine ⟨fun hin => absurd hin hr, hsecond, ⟨[r], hstored1⟩, ?_,
      fun k hk => by rw [heq, lsGetItem_set_other kv _ _ k hk]⟩
    rw [if_neg hr]
    exact hlook1

/-- Witness for C3: the localStorage-dedup test scenario — the store already
persists `["<receipt>"]` and `<receipt>` is stored again. -/
theorem addReceiptWithLocStor_idempotent_witness :
    (("<receipt>" : String) ∈ (["<receipt>"] : List String) →
      addReceiptWithLocStor [("fxpayReceipts", encodeReceipts ["<receipt>"])]
        "<receipt>" = [("fxpayReceipts", encodeReceipts ["<receipt>"])]) ∧
    addReceiptWithLocStor (addReceiptWithLocStor
        [("fxpayReceipts", encodeReceipts ["<receipt>"])] "<receipt>") "<receipt>" =
      addReceiptWithLocStor
        [("fxpayReceipts", encodeReceipts ["<receipt>"])] "<receipt>" ∧
    (∃ tail, getStoredReceipts (addReceiptWithLocStor
        [("fxpayReceipts", encodeReceipts ["<receipt>"])] "<receipt>") =
      ["<receipt>"] ++ tail) ∧
    lsGetItem (addReceiptWithLocStor
        [("fxpayReceipts", encodeReceipts ["<receipt>"])] "<receipt>")
        localStorageKey =
      some (encodeReceipts
        (if ("<receipt>" : String) ∈ (["<receipt>"] : List String)
         then ["<receipt>"] else ["<receipt>"] ++ ["<receipt>"])) ∧
    (∀ k, k ≠ localStorageKey →
      lsGetItem (addReceiptWithLocStor
        [("fxpayReceipts", encodeReceipts ["<receipt>"])] "<receipt>") k =
      lsGetItem [("fxpayReceipts", encodeReceipts ["<receipt>"])] k) :=
  addReceiptWithLocStor_idempotent
    [("fxpayReceipts", encodeReceipts ["<receipt>"])] "<receipt>" ["<receipt>"]
    (Or.inl rfl)

/-- Claim C6: when the device-native receipt store is unavailable and the
local fallback store is disabled (localStorage configured to null), storing
a receipt rejects with `PayPlatformUnavailable`. -/
theorem storeReceipt_unavailable (env : ReceiptStoreEnv) (receipt productId : String)
    (hdev : env.deviceStoreResult = none) (hls : env.localStorage = none) :
    (storeReceipt env receipt productId).2 =
      .error (.PayPlatformUnavailable "no way to store receipt") := by
  rw [storeReceipt, hdev, hls]

/-- Witness for C6: the no-storage-mechanisms test scenario. -/
theorem storeReceipt_unavailable_witness :
    (storeReceipt ⟨none, none⟩ "<receipt>" "some-guid").2 =
      .error (.PayPlatformUnavailable "no way to store receipt") :=
  storeReceipt_unavailable ⟨none, none⟩ "<receipt>" "some-guid" rfl rfl

/-- A JavaScript value as far as the settings and utils code observes it:
the `undefined` marker (which `typeof x === 'undefined'` tests), primitive
values, and opaque references for functions and objects. -/
inductive JSVal where
  | undef
  | jsNull
  | jsBool (b : Bool)
  | jsNum (n : Int)
  | jsStr (s : String)
  | jsFun (name : String)
  | jsObjRef (id : Nat)
  deriving Repr, DecidableEq

/-- Property read on a JavaScript object (association list): an absent key
reads as `undefined`. -/
def getProp : List (String × JSVal) → String → JSVal
  | [], _ => .undef
  | (k', v') :: rest, k => if k' = k then v' else getProp rest k

/-- Property write on a JavaScript object: replace the value of an existing
key or append a fresh key. -/
def setProp : List (String × JSVal) → String → JSVal → List (String × JSVal)
  | [], k, v => [(k, v)]
  | (k', v') :: rest, k, v =>
    if k' = k then (k, v) :: rest else (k', v') :: setProp rest k v

/-- `utils.defaults(object, defaults)` from `lib/fxpay/utils.js`: replace a
falsy `object` by a fresh empty object, then for each key of the defaults
object set `object[key] = defaults[key]` whenever `object[key]` is
undefined, and return the object. -/
def defaults (object : Option (List (String × JSVal)))
    (defaultsObj : List (String × JSVal)) : List (String × JSVal) :=
  defaultsObj.foldl
    (fun acc kv => if getProp acc kv.1 = .undef then setProp acc kv.1 kv.2 else acc)
    (object.getD [])

theorem getProp_set_self (o : List (String × JSVal)) (k : String) (v : JSVal) :
    getProp (setProp o k v) k = v := by
  induction o with
  | nil => simp [setProp, getProp]
  | cons p rest ih =>
    obtain ⟨pk, pv⟩ := p
    by_cases hp : pk = k
    · simp [setProp, hp, getProp]
    · simp [setProp, hp, getProp, ih]

theorem getProp_set_other (o : List (String × JSVal)) (k : String) (v : JSVal)
    (k' : String) (h : k' ≠ k) :
    getProp (setProp o k v) k' = getProp o k' := by
  have hne : ¬ k = k' := fun hh => h hh.symm
  induction o with
  | nil => simp [setProp, getProp, hne]
  | cons p rest ih =>
    obtain ⟨pk, pv⟩ := p
    by_cases hp : pk = k
    · subst hp
      simp only [setProp, if_pos rfl, getProp, if_neg hne]
    · simp only [setProp, if_neg hp, getProp, ih]

theorem defaults_fold_defined (d : List (String × JSVal)) :
    ∀ (acc : List (String × JSVal)) (k : String), getProp acc k ≠ .undef →
    getProp (d.foldl
      (fun acc kv => if getProp acc kv.1 = .undef then setProp acc kv.1 kv.2 else acc)
      acc) k = getProp acc k := by
  induction d with
  | nil => intro acc k _; rfl
  | cons kv d ih =>
    intro acc k hk
    rw [List.foldl_cons]
    by_cases hset : getProp acc kv.1 = .undef
    · rw [if_pos hset]
      have hne : k ≠ kv.1 := fun hh => hk (hh ▸ hset)
      rw [ih (setProp acc kv.1 kv.2) k
        (by rw [getProp_set_other acc kv.1 kv.2 k hne]; exact hk)]
      exact getProp_set_other acc kv.1 kv.2 k hne
    · rw [if_neg hset]
      exact ih acc k hk

theorem defaults_fold_absent (d : List (String × JSVal)) :
    ∀ (acc : List (String × JSVal)) (k : String), k ∉ d.map Prod.fst →
    getProp (d.foldl
      (fun acc kv => if getProp acc kv.1 = .undef then setProp acc kv.1 kv.2 else acc)
      acc) k = getProp acc k := by
  induction d with
  | nil => intro acc k _; rfl
  | cons kv d ih =>
    intro acc k hk
    have hne : k ≠ kv.1 := by
      intro hh
      exact hk (by simp [hh])
    have htl : k ∉ d.map Prod.fst := fun hh => hk (by simp [hh])
    rw [List.foldl_cons]
    by_cases hset : getProp acc kv.1 = .undef
    · rw [if_pos hset, ih (setProp acc kv.1 kv.2) k htl]
      exact getProp_set_other acc kv.1 kv.2 k hne
    · rw [if_neg hset]
      exact ih acc k htl

theorem defaults_fold_filled (d : List (String × JSVal)) :
    ∀ (acc : List (String × JSVal)) (k : String), (d.map Prod.fst).Nodup →
    getProp acc k = .undef → k ∈ d.map Prod.fst →
    getProp (d.foldl
      (fun acc kv => if getProp acc kv.1 = .undef then setProp acc kv.1 kv.2 else acc)
      acc) k = getProp d k := by
  induction d with
  | nil => intro acc k _ _ hk; simp at hk
  | cons kv d ih =>
    intro acc k hnodup hundef hk
    obtain ⟨kk, kvv⟩ := kv
    rw [List.map_cons] at hnodup
    have hsplit := List.nodup_cons.mp hnodup
    rw [List.foldl_cons]
    by_cases hkk : kk = k
    · subst hkk
      rw [if_pos hundef]
      rw [defaults_fold_absent d (setProp acc kk kvv) kk hsplit.1,
        getProp_set_self, getProp, if_pos rfl]
    · have hmem : k ∈ d.map Prod.fst := by
        rcases List.mem_cons.mp hk with hh | hh
        · exact absurd hh.symm (by simpa using hkk)
        · exact hh
      have hrhs : getProp ((kk, kvv) :: d) k = getProp d k := by
        rw [getProp, if_neg hkk]
      rw [hrhs]
      have hnd : (d.map Prod.fst).Nodup := hsplit.2
      by_cases hset : getProp acc kk = .undef
      · rw [if_pos hset]
        exact ih (setProp acc kk kvv) k hnd
          (by rw [getProp_set_other acc kk kvv k (by simpa using fun hh => hkk hh.symm)]
              exact hundef) hmem
      · rw [if_neg hset]
        exact ih acc k hnd hundef hmem

/-- Claim C9: `defaults(o, d)` returns the input object (a fresh one when
`o` is falsy) where every key of `d` that is undefined on `o` takes `d`'s
value, every key of `o` already holding a defined value (including null
and false) is unchanged, and keys outside `d` are untouched. -/
theorem defaults_spec (o : Option (List (String × JSVal)))
    (d : List (String × JSVal)) (k : String)
    (hd : (d.map Prod.fst).Nodup) :
    (getProp (o.getD []) k = .undef → k ∈ d.map Prod.fst →
      getProp (defaults o d) k = getProp d k) ∧
    (getProp (o.getD []) k ≠ .undef →
      getProp (defaults o d) k = getProp (o.getD []) k) ∧
    (k ∉ d.map Prod.fst →
      getProp (defaults o d) k = getProp (o.getD []) k) :=
  ⟨fun hu hm => defaults_fold_filled d (o.getD []) k hd hu hm,
   fun hu => defaults_fold_defined d (o.getD []) k hu,
   fun hm => defaults_fold_absent d (o.getD []) k hm⟩

/-- Witness for C9: filling `title` from the defaults while an explicitly
`null`-valued `url` survives (openWindow's use of defaults). -/
theorem defaults_spec_witness :
    ((getProp (Option.getD (some [("url", .jsNull)]) []) "title" = .undef →
      "title" ∈ ([("url", JSVal.jsStr ""), ("title", JSVal.jsStr "FxPay")].map Prod.fst) →
      getProp (defaults (some [("url", .jsNull)])
        [("url", .jsStr ""), ("title", .jsStr "FxPay")]) "title" =
      getProp [("url", JSVal.jsStr ""), ("title", JSVal.jsStr "FxPay")] "title") ∧
    (getProp (Option.getD (some [("url", .jsNull)]) []) "title" ≠ .undef →
      getProp (defaults (some [("url", .jsNull)])
        [("url", .jsStr ""), ("title", .jsStr "FxPay")]) "title" =
      getProp (Option.getD (some [("url", .jsNull)]) []) "title") ∧
    ("title" ∉ ([("url", JSVal.jsStr ""), ("title", JSVal.jsStr "FxPay")].map Prod.fst) →
      getProp (defaults (some [("url", .jsNull)])
        [("url", .jsStr ""), ("title", .jsStr "FxPay")]) "title" =
      getProp (Option.getD (some [("url", .jsNull)]) []) "title")) :=
  defaults_spec (some [("url", .jsNull)])
    [("url", .jsStr ""), ("title", .jsStr "FxPay")] "title" (by decide)

/-- The default settings of the settings module, with function- and
object-valued entries embedded as opaque references (only the keys and the
definedness of the values matter to `configure`). -/
def defaultSettings : List (String × JSVal) :=
  [("allowAnyAppReceipt", .jsBool false),
   ("apiUrlBase", .jsStr "https://marketplace.firefox.com"),
   ("apiVersionPrefix", .jsStr "/api/v1"),
   ("apiTimeoutMs", .jsNull),
   ("fakeProducts", .jsBool false),
   ("log", .jsObjRef 0),
   ("receiptCheckSites", .jsObjRef 1),
   ("appSelf", .jsNull),
   ("hasAddReceipt", .jsNull),
   ("payProviderUrls", .jsObjRef 2),
   ("window", .jsObjRef 3),
   ("prepareJwtApiUrl", .jsStr "/webpay/inapp/prepare/"),
   ("onerror", .jsFun "onerror"),
   ("oninit", .jsFun "oninit"),
   ("onrestore", .jsFun "onrestore"),
   ("initError", .jsStr "NOT_INITIALIZED"),
   ("localStorage", .jsObjRef 4),
   ("localStorageKey", .jsStr "fxpayReceipts"),
   ("mozPay", .jsFun "mozPay"),
   ("mozApps", .jsObjRef 5),
   ("libVersion", .jsStr "0.0.5")]

/-- The `for (var k in newSettings)` loop of `settings_configure`: keys are
applied in iteration order onto the exports object; the first key `k` with
`typeof exports[k] === 'undefined'` stops the loop and signals
`onerror('INCORRECT_USAGE')` (modelled as the second component). -/
def configureLoop : List (String × JSVal) → List (String × JSVal) →
    List (String × JSVal) × Option String
  | exports, [] => (exports, none)
  | exports, (k, v) :: rest =>
    if getProp exports k = .undef then (exports, some "INCORRECT_USAGE")
    else configureLoop (setProp exports k v) rest

/-- `settings_configure(newSettings, opt)` from the settings module: with
`opt.reset` every default is restored first, then the new settings are
applied key by key until an unknown key aborts with
`onerror('INCORRECT_USAGE')`. -/
def settings_configure (exports : List (String × JSVal))
    (newSettings : List (String × JSVal)) (reset : Bool) :
    List (String × JSVal) × Option String :=
  configureLoop
    (if reset then
      defaultSettings.foldl (fun acc kv => setProp acc kv.1 kv.2) exports
     else exports)
    newSettings

theorem configureLoop_unknown (ns : List (String × JSVal)) :
    ∀ exports : List (String × JSVal), (ns.map Prod.fst).Nodup →
    (∃ kv ∈ ns, getProp exports kv.1 = .undef) →
    (configureLoop exports ns).2 = some "INCORRECT_USAGE" := by
  induction ns with
  | nil =>
    intro exports _ h
    obtain ⟨kv, hmem, _⟩ := h
    simp at hmem
  | cons p rest ih =>
    intro exports hnodup h
    obtain ⟨pk, pv⟩ := p
    rw [configureLoop]
    by_cases hk : getProp exports pk = .undef
    · rw [if_pos hk]
    · rw [if_neg hk]
      rw [List.map_cons] at hnodup
      have hsplit := List.nodup_cons.mp hnodup
      obtain ⟨kv, hmem, hundef⟩ := h
      rcases List.mem_cons.mp hmem with hh | hh
      · rw [hh] at hundef
        exact absurd hundef hk
      · have hne : kv.1 ≠ pk := by
          intro he
          have hin : kv.1 ∈ rest.map Prod.fst := List.mem_map_of_mem Prod.fst hh
          rw [he] at hin
          exact hsplit.1 hin
        refine ih (setProp exports pk pv) hsplit.2 ⟨kv, hh, ?_⟩
        rw [getProp_set_other exports pk pv kv.1 hne]
        exact hundef

/-- Claim C7: calling `configure` with a settings object that contains a key
that is not a recognized setting signals the caller error — it invokes the
configured `onerror` with `'INCORRECT_USAGE'` instead of silently accepting
the key. -/
theorem configure_unknown_key (exports ns : List (String × JSVal))
    (hnodup : (ns.map Prod.fst).Nodup)
    (h : ∃ kv ∈ ns, getProp exports kv.1 = .undef) :
    (settings_configure exports ns false).2 = some "INCORRECT_USAGE" :=
  configureLoop_unknown ns exports hnodup h

/-- Witness for C7: configuring the default settings with an unknown key
`notAvalidOption` signals `INCORRECT_USAGE`. -/
theorem configure_unknown_key_witness :
    (settings_configure defaultSettings
      [("notAvalidOption", .jsBool false)] false).2 = some "INCORRECT_USAGE" :=
  configure_unknown_key defaultSettings [("notAvalidOption", .jsBool false)]
    (by decide) ⟨("notAvalidOption", .jsBool false), by decide, by decide⟩

theorem configureLoop_partial (rest : List (String × JSVal)) (k : String)
    (v : JSVal) (pre : List (String × JSVal)) :
    ∀ exports : List (String × JSVal), (pre.map Prod.fst).Nodup →
    (∀ kv ∈ pre, getProp exports kv.1 ≠ .undef) →
    getProp exports k = .undef →
    configureLoop exports (pre ++ (k, v) :: rest) =
      (pre.foldl (fun acc kv => setProp acc kv.1 kv.2) exports,
       some "INCORRECT_USAGE") := by
  induction pre with
  | nil =>
    intro exports _ _ hk
    rw [List.nil_append, List.foldl_nil, configureLoop, if_pos hk]
  | cons p tl ih =>
    intro exports hnodup hpre hk
    obtain ⟨pk, pv⟩ := p
    have hdef : getProp exports pk ≠ .undef := hpre (pk, pv) (by simp)
    rw [List.cons_append, configureLoop, if_neg hdef, List.foldl_cons]
    rw [List.map_cons] at hnodup
    have hsplit := List.nodup_cons.mp hnodup
    refine ih (setProp exports pk pv) hsplit.2 ?_ ?_
    · intro kv hmem
      have hne : kv.1 ≠ pk := by
        intro he
        have hin : kv.1 ∈ tl.map Prod.fst := List.mem_map_of_mem Prod.fst hmem
        rw [he] at hin
        exact hsplit.1 hin
      rw [getProp_set_other exports pk pv kv.1 hne]
      exact hpre kv (List.mem_cons_of_mem _ hmem)
    · have hne : k ≠ pk := by
        intro he
        exact hdef (he ▸ hk)
      rw [getProp_set_other exports pk pv k hne]
      exact hk

/-- Claim C10: `configure` is not atomic — every recognized key iterated
before the first unrecognized key has already been applied to the settings
object when `configure` stops and signals `INCORRECT_USAGE`, leaving the
settings partially updated. -/
theorem configure_partial_update (exports : List (String × JSVal))
    (pre rest : List (String × JSVal)) (k : String) (v : JSVal)
    (hnodup : (pre.map Prod.fst).Nodup)
    (hpre : ∀ kv ∈ pre, getProp exports kv.1 ≠ .undef)
    (hk : getProp exports k = .undef) :
    settings_configure exports (pre ++ (k, v) :: rest) false =
      (pre.foldl (fun acc kv => setProp acc kv.1 kv.2) exports,
       some "INCORRECT_USAGE") := by
  rw [settings_configure, if_neg (by simp)]
  exact configureLoop_partial rest k v pre exports hnodup hpre hk

/-- Witness for C10: a recognized key (`fakeProducts`) followed by an
unknown key — the recognized key is applied before the error is signaled. -/
theorem configure_partial_update_witness :
    settings_configure defaultSettings
      ([("fakeProducts", JSVal.jsBool true)] ++ ("bogus", JSVal.jsNull) :: []) false =
      ([("fakeProducts", JSVal.jsBool true)].foldl
        (fun acc kv => setProp acc kv.1 kv.2) defaultSettings,
       some "INCORRECT_USAGE") :=
  configure_partial_update defaultSettings
    [("fakeProducts", JSVal.jsBool true)] [] "bogus" JSVal.jsNull
    (by decide) (by decide) (by decide)

/-- Strip a literal character sequence from the front of the input,
returning the remainder on success. -/
def dropLit : List Char → List Char → Option (List Char)
  | [], cs => some cs
  | _ :: _, [] => none
  | p :: ps, c :: cs => if c = p then dropLit ps cs else none

/-- The `^https?://` part of the marketplace URL pattern. -/
def stripScheme (cs : List Char) : Option (List Char) :=
  match dropLit "https://".data cs with
  | some r => some r
  | none => dropLit "http://".data cs

/-- The `(?:marketplace|mp\.dev)` part of the marketplace URL pattern. -/
def stripHost (cs : List Char) : Option (List Char) :=
  match dropLit "marketplace".data cs with
  | some r => some r
  | none => dropLit "mp.dev".data cs

/-- The `/app/([^/]+)/manifest\.webapp$` part of the pattern, matched at the
current position: the captured group is the maximal run of non-slash
characters, which must be non-empty and followed by exactly
`/manifest.webapp` at the end of the input. -/
def guidTail (cs : List Char) : Option (List Char) :=
  match dropLit "/app/".data cs with
  | none => none
  | some rest =>
    let g := rest.takeWhile (fun c => ¬ c = '/')
    let rem := rest.dropWhile (fun c => ¬ c = '/')
    if g.isEmpty then none
    else if rem = "/manifest.webapp".data then some g
    else none

/-- The `.*` part of the pattern: try `guidTail` at every position, greedily
preferring the latest one; characters skipped over by `.*` may not be
newlines (a JavaScript `.` does not match a newline). -/
def scanApp : List Char → Option (List Char)
  | [] => none
  | c :: rest =>
    match (if c = '\n' then none else scanApp rest) with
    | some g => some g
    | none => guidTail (c :: rest)

/-- The regular expression
`^https?://(?:marketplace|mp\.dev).*/app/([^/]+)/manifest\.webapp$` of
`getSelfOrigin`: the extracted capture group (the marketplace GUID), or
`none` when the URL does not match. -/
def marketplaceGuid (url : List Char) : Option (List Char) :=
  match stripScheme url with
  | none => none
  | some r1 =>
    match stripHost r1 with
    | none => none
    | some r2 => scanApp r2

/-- JavaScript string truthiness of an optional string field (`undefined`
and the empty string are falsy). -/
def truthyStr : Option (List Char) → Bool
  | none => false
  | some s => !s.isEmpty

/-- The app manifest fields `getSelfOrigin` inspects: the declared `origin`
(absent or a string) and the manifest `type`. -/
structure AppManifest where
  origin : Option (List Char)
  type : Option (List Char)
  deriving Repr, DecidableEq

/-- The `appSelf` object: its manifest, its `manifestURL` and its
auto-generated `origin`. -/
structure AppSelf where
  manifest : AppManifest
  manifestURL : List Char
  origin : List Char
  deriving Repr, DecidableEq

/-- The `window.location` fields consulted for a non-app website. -/
structure JsWindow where
  locationOrigin : Option (List Char)
  locationProtocol : List Char
  locationHostname : List Char
  deriving Repr, DecidableEq

/-- The settings fields `getSelfOrigin` reads. -/
structure UtilsSettings where
  appSelf : Option AppSelf
  window : JsWindow
  deriving Repr, DecidableEq

/-- `utils.getSelfOrigin(settingsObj)` from `lib/fxpay/utils.js`: an app
whose manifest type is `web` or which declares no origin gets a
marketplace-derived origin from its `manifestURL`, raising
`InvalidAppOrigin` when the URL does not match the marketplace package
pattern; a privileged/certified app keeps its declared origin; without an
`appSelf` the window location provides the origin. -/
def getSelfOrigin (settingsObj : UtilsSettings) : Except FxError (List Char) :=
  match settingsObj.appSelf with
  | some appSelf =>
    let hasDeclaredOrigin := truthyStr appSelf.manifest.origin
    if appSelf.manifest.type = some "web".data ∨ hasDeclaredOrigin = false then
      match marketplaceGuid appSelf.manifestURL with
      | none =>
        .error (.InvalidAppOrigin
          (("Cannot derive marketplace GUID from \"").data ++
            appSelf.manifestURL ++
            ("\". The package must be installed from the Firefox Marketplace " ++
             "or define an origin. For local testing, use fake products.").data))
      | some guid => .ok ("marketplace:".data ++ guid)
    else .ok appSelf.origin
  | none =>
    if truthyStr settingsObj.window.locationOrigin then
      .ok (settingsObj.window.locationOrigin.getD [])
    else
      .ok (settingsObj.window.locationProtocol ++ "//".data ++
        settingsObj.window.locationHostname)

/-- Claim C8: for a settings object with a non-null `appSelf` whose manifest
type is `web` or which declares no origin, `getSelfOrigin` raises
`InvalidAppOrigin` exactly when the `manifestURL` does not match the
marketplace-hosted package URL pattern, and on a match returns
`marketplace:` followed by the extracted GUID. -/
theorem getSelfOrigin_marketplace (s : UtilsSettings) (app : AppSelf)
    (happ : s.appSelf = some app)
    (hweb : app.manifest.type = some "web".data ∨
            truthyStr app.manifest.origin = false) :
    ((∃ msg, getSelfOrigin s = .error (.InvalidAppOrigin msg)) ↔
      marketplaceGuid app.manifestURL = none) ∧
    (∀ g, marketplaceGuid app.manifestURL = some g →
      getSelfOrigin s = .ok ("marketplace:".data ++ g)) := by
  rw [getSelfOrigin.eq_def, happ]
  simp only []
  rw [if_pos hweb]
  cases hm : marketplaceGuid app.manifestURL with
  | none =>
    refine ⟨⟨fun _ => rfl, fun _ => ⟨_, rfl⟩⟩, fun g hg => ?_⟩
    exact absurd hg (by simp)
  | some g0 =>
    constructor
    · constructor
      · intro hmsg
        obtain ⟨msg, hmsg⟩ := hmsg
        exact absurd hmsg (by simp)
      · intro hcontra
        exact absurd hcontra (by simp)
    · intro g hg
      have : g0 = g := by
        injection hg
      rw [this]

/-- Witness for C8: a marketplace-hosted web app — the GUID is extracted
from the manifest URL and becomes the `marketplace:` origin; the same
theorem instance also certifies the no-match direction of the iff. -/
theorem getSelfOrigin_marketplace_witness :
    ((∃ msg, getSelfOrigin
        ⟨some ⟨⟨none, some "web".data⟩,
          "https://marketplace.firefox.com/app/the-guid/manifest.webapp".data,
          "app://origin".data⟩, ⟨none, [], []⟩⟩ =
        .error (.InvalidAppOrigin msg)) ↔
      marketplaceGuid
        "https://marketplace.firefox.com/app/the-guid/manifest.webapp".data = none) ∧
    (∀ g, marketplaceGuid
        "https://marketplace.firefox.com/app/the-guid/manifest.webapp".data = some g →
      getSelfOrigin
        ⟨some ⟨⟨none, some "web".data⟩,
          "https://marketplace.firefox.com/app/the-guid/manifest.webapp".data,
          "app://origin".data⟩, ⟨none, [], []⟩⟩ =
        .ok ("marketplace:".data ++ g)) :=
  getSelfOrigin_marketplace
    ⟨some ⟨⟨none, some "web".data⟩,
      "https://marketplace.firefox.com/app/the-guid/manifest.webapp".data,
      "app://origin".data⟩, ⟨none, [], []⟩⟩
    ⟨⟨none, some "web".data⟩,
      "https://marketplace.firefox.com/app/the-guid/manifest.webapp".data,
      "app://origin".data⟩ rfl (Or.inl rfl)

end FxPay
